import Mathlib

/-!
Verification of the Sandy's Law Z–Σ control-map diagnostic pipeline
(`streamlit_app.py`).  The numeric pipeline (lines 125–215 of the source) is
embedded over exact rationals: proxy normalization, the Gate Product and its
numerical gradient, the wall-distance computation against the Sandy Square,
the 90th-percentile slope threshold, and the Phase-0 flags.  A second, small
model with IEEE-style special values (`±inf`, `nan`) covers the behaviour of
the division `P_rad / P_input` when `P_input = 0` and of the epsilon guard in
the min–max normalization.
-/

namespace SandysLaw

/-- Sandy Square lower bound for Z (source line 50). -/
def Z_min : ℚ := 0.30

/-- Sandy Square upper bound for Z (source line 50). -/
def Z_max : ℚ := 0.90

/-- Sandy Square lower bound for Σ (source line 51). -/
def Sigma_min : ℚ := 0.15

/-- Sandy Square upper bound for Σ (source line 51). -/
def Sigma_max : ℚ := 0.85

/-- Normalization guard added to the denominator of the min–max
normalizations (source lines 135 and 141). -/
def epsilon : ℚ := 1e-6

/-- Proximity threshold on the distance to the Sandy Square wall
(source line 162). -/
def d_crit : ℚ := 0.05

/-- Minimum of a list of rationals; the empty case never arises in the
pipeline (pandas `Series.min`). -/
def qmin : List ℚ → ℚ
  | [] => 0
  | x :: xs => xs.foldl min x

/-- Maximum of a list of rationals (pandas `Series.max`). -/
def qmax : List ℚ → ℚ
  | [] => 0
  | x :: xs => xs.foldl max x

/-- Min–max normalization with the epsilon guard, used for both `Z_proxy`
(source lines 134–136) and `Sigma_proxy` (source lines 140–142):
`(x - min) / (max - min + epsilon)` elementwise. -/
def minmaxNormalize (l : List ℚ) : List ℚ :=
  l.map (fun x => (x - qmin l) / (qmax l - qmin l + epsilon))

/-- Radiated-power fraction `f_rad = P_rad / P_input` (source line 138). -/
def f_rad (prad pinp : List ℚ) : List ℚ :=
  List.zipWith (fun a b => a / b) prad pinp

/-- Raw entropy-export proxy
`Sigma_raw = 0.5 * f_rad + 0.4 * f_ELM - 0.3 * DeltaW_ELM`
(source line 139). -/
def Sigma_raw (prad pinp felm dw : List ℚ) : List ℚ :=
  List.zipWith (fun x w => x - 0.3 * w)
    (List.zipWith (fun fr e => 0.5 * fr + 0.4 * e) (f_rad prad pinp) felm) dw

/-- Gate Product series `G = (1 - Z) * Sigma` elementwise (source line 144). -/
def G_series (z s : List ℚ) : List ℚ :=
  List.zipWith (fun zi si => (1 - zi) * si) z s

/-- The four signed wall distances of one sample against the Sandy Square and
their minimum (source lines 149–156: `np.min` over the `vstack` of the four
distance rows). -/
def wallDistance (zi si : ℚ) : ℚ :=
  min (zi - Z_min) (min (Z_max - zi) (min (si - Sigma_min) (Sigma_max - si)))

/-- Per-sample distance to the Sandy Square wall, `d_min` in the source
(lines 149–156). -/
def d_minSeries (z s : List ℚ) : List ℚ :=
  List.zipWith wallDistance z s

/-- Interior and trailing entries of `np.gradient`: `p` and `c` are the two
previous samples; the interior entries are central differences
`(next - p) / 2`, and the final entry is the one-sided difference `c - p`. -/
def gradAux (p c : ℚ) : List ℚ → List ℚ
  | [] => [c - p]
  | n :: rest => (n - p) / 2 :: gradAux c n rest

/-- Numerical gradient `np.gradient` with unit spacing (source line 159):
one-sided differences at the two endpoints, central differences in the
interior.  `np.gradient` raises on arrays of fewer than two elements, which
the embedding renders as `none`. -/
def npGradient : List ℚ → Option (List ℚ)
  | [] => none
  | [_] => none
  | x :: y :: rest => some ((y - x) :: gradAux x y rest)

/-- Insert a rational into an ascending list, keeping it ascending. -/
def insertAsc (x : ℚ) : List ℚ → List ℚ
  | [] => [x]
  | y :: ys => if x ≤ y then x :: y :: ys else y :: insertAsc x ys

/-- Ascending insertion sort, the sort underlying `np.percentile`. -/
def sortAsc : List ℚ → List ℚ
  | [] => []
  | x :: xs => insertAsc x (sortAsc xs)

/-- The 90th percentile of a list, `np.percentile(l, 90)` with the default
linear interpolation (source line 163): with `s` the sorted data and
`pos = 90 * (n - 1) / 100` the virtual index, the result is
`s[lo] + frac * (s[lo + 1] - s[lo])` where `lo = floor pos` and
`frac = pos - lo`. -/
def npPercentile90 (l : List ℚ) : ℚ :=
  let s := sortAsc l
  let lo : ℕ := 90 * (s.length - 1) / 100
  let pos : ℚ := 90 * ((s.length : ℚ) - 1) / 100
  let frac : ℚ := pos - (lo : ℚ)
  s.getD lo 0 + frac * (s.getD (lo + 1) 0 - s.getD lo 0)

/-- Diagnostic result of one batch run: the proxy, gate and distance series,
the slope series, the three per-sample flag series (source lines 166–169) and
the summary scalars shown by the status panel (source lines 203, 211–212). -/
structure Report where
  Z : List ℚ
  Sigma : List ℚ
  G : List ℚ
  d_min : List ℚ
  dGdt : List ℚ
  proximity_flag : List Bool
  pressure_flag : List Bool
  phase0_flag : List Bool
  min_distance : ℚ
  max_slope : ℚ
  flagged_count : ℕ
deriving DecidableEq, Repr, Inhabited

/-- Failure modes of the batch computation: the explicit missing-column
check (source lines 130–131) and any exception caught by the surrounding
`try`/`except` (source lines 214–215), such as the one `np.gradient` raises
on a batch of fewer than two rows. -/
inductive PipeError where
  | missingColumns (msg : String)
  | dataError
deriving DecidableEq, Repr

/-- Required input columns (source line 129). -/
def requiredCols : List String :=
  ["time", "H98y2", "P_rad", "P_input", "f_ELM", "DeltaW_ELM"]

/-- The `required.issubset(df.columns)` check of source line 130. -/
def hasRequired (cols : List (String × List ℚ)) : Bool :=
  requiredCols.all (fun c => (cols.map Prod.fst).contains c)

/-- Column extraction from the parsed tabular input; only applied to columns
whose presence the `hasRequired` check has established. -/
def getCol (cols : List (String × List ℚ)) (c : String) : List ℚ :=
  ((cols.lookup c).getD [])

/-- The per-batch numeric pipeline of source lines 133–169 after the column
check: proxies, Gate Product, wall distances, slope, percentile threshold and
the three flag series, plus the summary scalars of lines 203 and 211–212. -/
def pipeline (h prad pinp felm dw : List ℚ) : Except PipeError Report :=
  let z := minmaxNormalize h
  let sraw := Sigma_raw prad pinp felm dw
  let s := minmaxNormalize sraw
  let g := G_series z s
  let d := d_minSeries z s
  match npGradient g with
  | none => .error .dataError
  | some dg =>
    let dG_crit := npPercentile90 dg
    let prox := d.map (fun x => decide (x < d_crit))
    let press := dg.map (fun x => decide (x > dG_crit))
    .ok { Z := z, Sigma := s, G := g, d_min := d, dGdt := dg,
          proximity_flag := prox, pressure_flag := press,
          phase0_flag := List.zipWith (fun a b => a || b) prox press,
          min_distance := qmin d, max_slope := qmax dg,
          flagged_count := (List.zipWith (fun a b => a || b) prox press).count true }

/-- The whole data-processing branch of source lines 125–215: the required
column check followed by the numeric pipeline; a missing column yields the
fixed error message of source line 131 and produces no report. -/
def processInput (cols : List (String × List ℚ)) : Except PipeError Report :=
  if hasRequired cols then
    pipeline (getCol cols "H98y2") (getCol cols "P_rad") (getCol cols "P_input")
      (getCol cols "f_ELM") (getCol cols "DeltaW_ELM")
  else .error (.missingColumns "Missing required columns.")

/-- Scalar Gate Product of the manual mode, `G_manual = (1 - Z) * Sigma`
(source line 56). -/
def G_scalar (z s : ℚ) : ℚ := (1 - z) * s

/-- Zone labels of the manual-mode phase classification. -/
inductive PhaseLabel where
  | DeadZone
  | DangerZone
  | SafeZone
deriving DecidableEq, Repr

/-- Modelled from the spec: the manual/scalar-mode PhaseClassifier is not
present in `src/streamlit_app.py`; following spec section 4.3, a single
(Z, Sigma) pair is labeled by the fixed precedence order
`Z < 0.3` then `DeadZone`, else `Z > 0.7 and Sigma < 0.15` then
`DangerZone`, else `SafeZone`. -/
def classifyPhase (z s : ℚ) : PhaseLabel :=
  if z < 0.3 then .DeadZone
  else if z > 0.7 ∧ s < 0.15 then .DangerZone
  else .SafeZone

/-- Numeric values as IEEE-754 binary64 produces them for this pipeline:
an exact finite rational, the two infinities, or NaN.  Rounding and overflow
are immaterial to the claims settled against this model, which only concern
the creation and propagation of non-finite values. -/
inductive FVal where
  | fin (q : ℚ)
  | inf
  | ninf
  | nan
deriving DecidableEq, Repr

/-- A value is finite when it is neither an infinity nor NaN. -/
def isFinite : FVal → Bool
  | .fin _ => true
  | _ => false

/-- Negation on extended values. -/
def fneg : FVal → FVal
  | .fin q => .fin (-q)
  | .inf => .ninf
  | .ninf => .inf
  | .nan => .nan

/-- IEEE addition on extended values: NaN propagates, opposite infinities
give NaN, an infinity absorbs finite addends. -/
def fadd : FVal → FVal → FVal
  | .nan, _ => .nan
  | _, .nan => .nan
  | .inf, .ninf => .nan
  | .ninf, .inf => .nan
  | .inf, _ => .inf
  | _, .inf => .inf
  | .ninf, _ => .ninf
  | _, .ninf => .ninf
  | .fin a, .fin b => .fin (a + b)

/-- IEEE subtraction on extended values. -/
def fsub (a b : FVal) : FVal := fadd a (fneg b)

/-- IEEE multiplication on extended values: NaN propagates, an infinity
times zero gives NaN, otherwise signs compose. -/
def fmul : FVal → FVal → FVal
  | .nan, _ => .nan
  | _, .nan => .nan
  | .inf, .inf => .inf
  | .inf, .ninf => .ninf
  | .ninf, .inf => .ninf
  | .ninf, .ninf => .inf
  | .inf, .fin b => if 0 < b then .inf else if b < 0 then .ninf else .nan
  | .fin a, .inf => if 0 < a then .inf else if a < 0 then .ninf else .nan
  | .ninf, .fin b => if 0 < b then .ninf else if b < 0 then .inf else .nan
  | .fin a, .ninf => if 0 < a then .ninf else if a < 0 then .inf else .nan
  | .fin a, .fin b => .fin (a * b)

/-- IEEE division on extended values (zero taken as +0, the value numpy
produces for the inputs at hand): a nonzero finite over zero gives a signed
infinity, zero over zero gives NaN, infinity over infinity gives NaN. -/
def fdiv : FVal → FVal → FVal
  | .nan, _ => .nan
  | _, .nan => .nan
  | .inf, .inf => .nan
  | .inf, .ninf => .nan
  | .ninf, .inf => .nan
  | .ninf, .ninf => .nan
  | .fin _, .inf => .fin 0
  | .fin _, .ninf => .fin 0
  | .inf, .fin b => if b < 0 then .ninf else .inf
  | .ninf, .fin b => if b < 0 then .inf else .ninf
  | .fin a, .fin b =>
    if b = 0 then (if a = 0 then .nan else if 0 < a then .inf else .ninf)
    else .fin (a / b)

/-- Minimum of two extended values with NaN as the neutral element, matching
pandas `Series.min` with its default NaN skipping. -/
def fmin2 : FVal → FVal → FVal
  | .ninf, _ => .ninf
  | _, .ninf => .ninf
  | .nan, b => b
  | a, .nan => a
  | .inf, b => b
  | a, .inf => a
  | .fin a, .fin b => .fin (min a b)

/-- Maximum of two extended values with NaN as the neutral element, matching
pandas `Series.max` with its default NaN skipping. -/
def fmax2 : FVal → FVal → FVal
  | .inf, _ => .inf
  | _, .inf => .inf
  | .nan, b => b
  | a, .nan => a
  | .ninf, b => b
  | a, .ninf => a
  | .fin a, .fin b => .fin (max a b)

/-- NaN-skipping minimum of a list of extended values, pandas
`Series.min`. -/
def fminList (l : List FVal) : FVal := l.foldl fmin2 .nan

/-- NaN-skipping maximum of a list of extended values, pandas
`Series.max`. -/
def fmaxList (l : List FVal) : FVal := l.foldl fmax2 .nan

/-- The Z-proxy normalization of source lines 134–136 executed on extended
values: the parsed finite inputs pass through the min–max normalization with
the epsilon guard. -/
def fZ_proxy (h : List ℚ) : List FVal :=
  let hf := h.map FVal.fin
  hf.map (fun x =>
    fdiv (fsub x (fminList hf))
      (fadd (fsub (fmaxList hf) (fminList hf)) (.fin epsilon)))

/-- The division `f_rad = P_rad / P_input` of source line 138 executed on
extended values. -/
def fFrad (prad pinp : List ℚ) : List FVal :=
  List.zipWith (fun a b => fdiv (.fin a) (.fin b)) prad pinp

/-- The raw entropy-export proxy of source line 139 executed on extended
values. -/
def fSigmaRaw (prad pinp felm dw : List ℚ) : List FVal :=
  List.zipWith (fun x w => fsub x (fmul (.fin 0.3) (.fin w)))
    (List.zipWith (fun fr e => fadd (fmul (.fin 0.5) fr) (fmul (.fin 0.4) (.fin e)))
      (fFrad prad pinp) felm) dw

/-- The Σ-proxy normalization of source lines 140–142 executed on extended
values. -/
def fSigmaProxy (prad pinp felm dw : List ℚ) : List FVal :=
  let sr := fSigmaRaw prad pinp felm dw
  sr.map (fun x =>
    fdiv (fsub x (fminList sr))
      (fadd (fsub (fmaxList sr) (fminList sr)) (.fin epsilon)))

/-- The Gate Product of source line 144 executed on extended values. -/
def fG_series (z s : List FVal) : List FVal :=
  List.zipWith (fun zi si => fmul (fsub (.fin 1) zi) si) z s

/-- Concrete two-row batch with all required columns, used to exercise the
pipeline on explicit data. -/
def exCols : List (String × List ℚ) :=
  [("time", [0, 1]), ("H98y2", [0, 1]), ("P_rad", [0, 2]),
   ("P_input", [1, 1]), ("f_ELM", [0, 0]), ("DeltaW_ELM", [0, 0])]

/-- The report the pipeline produces on `exCols`, written out in full. -/
def exReport : Report where
  Z := [0, 1000000 / 1000001]
  Sigma := [0, 1000000 / 1000001]
  G := [0, 1000000 / 1000002000001]
  d_min := [-3 / 10, -2999983 / 20000020]
  dGdt := [1000000 / 1000002000001, 1000000 / 1000002000001]
  proximity_flag := [true, true]
  pressure_flag := [false, false]
  phase0_flag := [true, true]
  min_distance := -3 / 10
  max_slope := 1000000 / 1000002000001
  flagged_count := 2

/-- Concrete batch lacking the required `H98y2` column. -/
def exMissingCols : List (String × List ℚ) :=
  [("time", [0, 1]), ("P_rad", [1, 1]), ("P_input", [1, 1]),
   ("f_ELM", [0, 0]), ("DeltaW_ELM", [0, 0])]

/-- Concrete batch with all required columns but exactly one row. -/
def exOneRowCols : List (String × List ℚ) :=
  [("time", [0]), ("H98y2", [1]), ("P_rad", [1]), ("P_input", [1]),
   ("f_ELM", [0]), ("DeltaW_ELM", [0])]

/-! Helper lemmas about list indexing and the pipeline's success shape. -/

/-- Indexing a `zipWith` in range reads both lists at the same index. -/
theorem getD_zipWith {α β γ : Type} (f : α → β → γ) (l1 : List α) (l2 : List β)
    (i : ℕ) (d1 : α) (d2 : β) (d3 : γ)
    (h : i < (List.zipWith f l1 l2).length) :
    (List.zipWith f l1 l2).getD i d3 = f (l1.getD i d1) (l2.getD i d2) := by
  induction l1 generalizing l2 i with
  | nil => simp at h
  | cons x xs ih =>
    cases l2 with
    | nil => simp at h
    | cons y ys =>
      cases i with
      | zero => rfl
      | succ n =>
        simpa using ih ys n (by simpa using h)

/-- Indexing a `map` in range reads the underlying list at the same index. -/
theorem getD_map {α β : Type} (f : α → β) (l : List α)
    (i : ℕ) (d1 : α) (d2 : β) (h : i < (l.map f).length) :
    (l.map f).getD i d2 = f (l.getD i d1) := by
  induction l generalizing i with
  | nil => simp at h
  | cons x xs ih =>
    cases i with
    | zero => rfl
    | succ n =>
      simpa using ih n (by simpa using h)

/-- An in-range `getD` entry is a member of the list. -/
theorem getD_mem {α : Type} (l : List α) (i : ℕ) (d : α) (h : i < l.length) :
    l.getD i d ∈ l := by
  rw [List.getD_eq_getElem l d h]
  exact List.getElem_mem h

/-- A successful pipeline run fixes every field of the report: the proxies
are the two min–max normalizations, the gradient succeeded, and every flag
series is the elementwise rule of source lines 162–169. -/
theorem pipeline_ok {h prad pinp felm dw : List ℚ} {r : Report}
    (hr : pipeline h prad pinp felm dw = .ok r) :
    ∃ dg, npGradient (G_series (minmaxNormalize h)
        (minmaxNormalize (Sigma_raw prad pinp felm dw))) = some dg ∧
      r.Z = minmaxNormalize h ∧
      r.Sigma = minmaxNormalize (Sigma_raw prad pinp felm dw) ∧
      r.G = G_series r.Z r.Sigma ∧
      r.d_min = d_minSeries r.Z r.Sigma ∧
      r.dGdt = dg ∧
      r.proximity_flag = r.d_min.map (fun x => decide (x < d_crit)) ∧
      r.pressure_flag = r.dGdt.map (fun x => decide (x > npPercentile90 r.dGdt)) ∧
      r.phase0_flag = List.zipWith (fun a b => a || b)
        r.proximity_flag r.pressure_flag := by
  simp only [pipeline] at hr
  cases hg : npGradient (G_series (minmaxNormalize h)
      (minmaxNormalize (Sigma_raw prad pinp felm dw))) with
  | none => rw [hg] at hr; exact absurd hr (by simp)
  | some dg =>
    rw [hg] at hr
    simp only [Except.ok.injEq] at hr
    subst hr
    exact ⟨dg, rfl, rfl, rfl, rfl, rfl, rfl, rfl, rfl, rfl⟩

/-- A successful whole-run fixes the column check and delegates to the
pipeline on the five extracted columns. -/
theorem processInput_ok {cols : List (String × List ℚ)} {r : Report}
    (hr : processInput cols = .ok r) :
    hasRequired cols = true ∧
      pipeline (getCol cols "H98y2") (getCol cols "P_rad")
        (getCol cols "P_input") (getCol cols "f_ELM")
        (getCol cols "DeltaW_ELM") = .ok r := by
  unfold processInput at hr
  by_cases hc : hasRequired cols
  · rw [if_pos hc] at hr; exact ⟨hc, hr⟩
  · rw [if_neg hc] at hr; exact absurd hr (by simp)

/-- Shared expansion of one Phase-0 flag entry into the proximity and
pressure tests of source lines 162–169. -/
theorem phase0_getD_eq {cols : List (String × List ℚ)} {r : Report}
    (h : processInput cols = .ok r) (i : ℕ) (hi : i < r.phase0_flag.length) :
    r.phase0_flag.getD i false =
      (decide (r.d_min.getD i 0 < 0.05) ||
        decide (r.dGdt.getD i 0 > npPercentile90 r.dGdt)) := by
  obtain ⟨-, hp⟩ := processInput_ok h
  obtain ⟨dg, -, -, -, -, -, -, hprox, hpress, hp0⟩ := pipeline_ok hp
  rw [hp0, hprox, hpress] at hi
  rw [hp0, hprox, hpress]
  have hlen := hi
  rw [List.length_zipWith] at hlen
  have h1 : i < (r.d_min.map (fun x => decide (x < d_crit))).length :=
    lt_of_lt_of_le hlen (min_le_left _ _)
  have h2 : i < (r.dGdt.map (fun x => decide (x > npPercentile90 r.dGdt))).length :=
    lt_of_lt_of_le hlen (min_le_right _ _)
  rw [getD_zipWith _ _ _ i false false false hi,
      getD_map _ _ _ 0 false h1, getD_map _ _ _ 0 false h2]
  norm_num [d_crit]

/-- C1: for every batch, the Phase-0 flag of sample `i` is the disjunction
of the proximity test `distance_to_wall i < 0.05` and the pressure test
`dGdt i > dG_crit`, where `dG_crit` is the 90th percentile of the `dGdt`
series of that same batch (a function of the batch's own slope series, not a
fixed constant). -/
theorem phase0_flag_disjunction (cols : List (String × List ℚ)) (r : Report)
    (h : processInput cols = .ok r) (i : ℕ) (hi : i < r.phase0_flag.length) :
    r.phase0_flag.getD i false =
      (decide (r.d_min.getD i 0 < 0.05) ||
        decide (r.dGdt.getD i 0 > npPercentile90 r.dGdt)) :=
  phase0_getD_eq h i hi

/-- C2: for every sample, the distance to the wall equals the minimum of the
four signed wall distances against the Sandy Square bounds
`Z_min = 0.30, Z_max = 0.90, Sigma_min = 0.15, Sigma_max = 0.85`; a negative
minimum is returned as-is, never clamped to zero. -/
theorem distance_to_wall_min_of_four (cols : List (String × List ℚ))
    (r : Report) (h : processInput cols = .ok r) (i : ℕ)
    (hi : i < r.d_min.length) :
    r.d_min.getD i 0 =
      min (r.Z.getD i 0 - 0.30)
        (min (0.90 - r.Z.getD i 0)
          (min (r.Sigma.getD i 0 - 0.15) (0.85 - r.Sigma.getD i 0))) := by
  obtain ⟨-, hp⟩ := processInput_ok h
  obtain ⟨dg, -, -, -, -, hd, -, -, -, -⟩ := pipeline_ok hp
  rw [hd] at hi
  rw [hd]
  rw [d_minSeries, getD_zipWith _ _ _ i 0 0 0 hi]
  simp [wallDistance, Z_min, Z_max, Sigma_min, Sigma_max]

/-- C6: whenever a sample lies outside the Sandy Square (strictly negative
distance to the wall), its Phase-0 flag is raised. -/
theorem outside_rectangle_flagged (cols : List (String × List ℚ))
    (r : Report) (h : processInput cols = .ok r) (i : ℕ)
    (hi : i < r.phase0_flag.length) (hneg : r.d_min.getD i 0 < 0) :
    r.phase0_flag.getD i false = true := by
  rw [phase0_getD_eq h i hi]
  have hlt : r.d_min.getD i 0 < 0.05 := lt_trans hneg (by norm_num)
  simp only [Bool.or_eq_true, decide_eq_true_eq]
  exact Or.inl hlt

/-- C3: the confinement proxy is the min–max normalization of the `H98y2`
column with the `1e-6` epsilon guard in the denominator; on the constant
batch `H98y2 = [1, 1, 1]` the guard makes every entry exactly `0`, and the
floating-point model confirms the entries are finite zeros, not NaN. -/
theorem Z_proxy_minmax_epsilon (cols : List (String × List ℚ)) (r : Report)
    (H : List ℚ) (h : processInput cols = .ok r)
    (hH : cols.lookup "H98y2" = some H) (i : ℕ) (hi : i < H.length) :
    r.Z.getD i 0 = (H.getD i 0 - qmin H) / (qmax H - qmin H + 1e-6) ∧
    minmaxNormalize [1, 1, 1] = [0, 0, 0] ∧
    fZ_proxy [1, 1, 1] = [.fin 0, .fin 0, .fin 0] := by
  refine ⟨?_, ?_, ?_⟩
  · obtain ⟨-, hp⟩ := processInput_ok h
    obtain ⟨dg, -, hZ, -, -, -, -, -, -, -⟩ := pipeline_ok hp
    have hcol : getCol cols "H98y2" = H := by simp [getCol, hH]
    rw [hZ, hcol, minmaxNormalize]
    have hi' : i < (H.map
        (fun x => (x - qmin H) / (qmax H - qmin H + epsilon))).length := by
      simpa using hi
    rw [getD_map _ _ _ 0 0 hi']
    norm_num [epsilon]
  · norm_num [minmaxNormalize, qmin, qmax, epsilon]
  · norm_num [fZ_proxy, fminList, fmaxList, fmin2, fmax2, fadd, fsub, fneg,
      fdiv, epsilon]

/-- C4: with every `P_input` entry nonzero, the raw entropy-export proxy is
`0.5 * (P_rad / P_input) + 0.4 * f_ELM - 0.3 * DeltaW_ELM` per sample, and
the Σ proxy is its min–max normalization with the `1e-6` guard. -/
theorem Sigma_proxy_formula (cols : List (String × List ℚ)) (r : Report)
    (P Pi E W : List ℚ) (h : processInput cols = .ok r)
    (hP : cols.lookup "P_rad" = some P)
    (hPi : cols.lookup "P_input" = some Pi)
    (hE : cols.lookup "f_ELM" = some E)
    (hW : cols.lookup "DeltaW_ELM" = some W)
    (_hnz : ∀ x ∈ Pi, x ≠ 0) (i : ℕ) (hi : i < (Sigma_raw P Pi E W).length) :
    (Sigma_raw P Pi E W).getD i 0 =
      0.5 * (P.getD i 0 / Pi.getD i 0) + 0.4 * E.getD i 0 -
        0.3 * W.getD i 0 ∧
    r.Sigma.getD i 0 =
      ((Sigma_raw P Pi E W).getD i 0 - qmin (Sigma_raw P Pi E W)) /
        (qmax (Sigma_raw P Pi E W) - qmin (Sigma_raw P Pi E W) + 1e-6) := by
  have hinner : i < (List.zipWith
      (fun fr e => 0.5 * fr + 0.4 * e) (f_rad P Pi) E).length := by
    rw [Sigma_raw, List.length_zipWith] at hi
    exact lt_of_lt_of_le hi (min_le_left _ _)
  have hfr : i < (f_rad P Pi).length := by
    rw [List.length_zipWith] at hinner
    exact lt_of_lt_of_le hinner (min_le_left _ _)
  refine ⟨?_, ?_⟩
  · rw [Sigma_raw, getD_zipWith _ _ _ i 0 0 0 (by rw [← Sigma_raw]; exact hi),
      getD_zipWith _ _ _ i 0 0 0 hinner,
      f_rad, getD_zipWith _ _ _ i 0 0 0 (by rw [← f_rad]; exact hfr)]
  · obtain ⟨-, hp⟩ := processInput_ok h
    obtain ⟨dg, -, -, hS, -, -, -, -, -, -⟩ := pipeline_ok hp
    have hcolP : getCol cols "P_rad" = P := by simp [getCol, hP]
    have hcolPi : getCol cols "P_input" = Pi := by simp [getCol, hPi]
    have hcolE : getCol cols "f_ELM" = E := by simp [getCol, hE]
    have hcolW : getCol cols "DeltaW_ELM" = W := by simp [getCol, hW]
    rw [hS, hcolP, hcolPi, hcolE, hcolW, minmaxNormalize]
    have hi' : i < ((Sigma_raw P Pi E W).map
        (fun x => (x - qmin (Sigma_raw P Pi E W)) /
          (qmax (Sigma_raw P Pi E W) - qmin (Sigma_raw P Pi E W) +
            epsilon))).length := by
      simpa using hi
    rw [getD_map _ _ _ 0 0 hi']
    norm_num [epsilon]

/-- C5: a Gate Product entry `(1 - Z) * Sigma` built from proxies inside
`[0, 1]` lies in `[0, 1]`, and vanishes whenever `Z = 1` or `Sigma = 0`. -/
theorem gate_product_range (z s : List ℚ) (i : ℕ)
    (hi : i < (G_series z s).length)
    (hz0 : 0 ≤ z.getD i 0) (hz1 : z.getD i 0 ≤ 1)
    (hs0 : 0 ≤ s.getD i 0) (hs1 : s.getD i 0 ≤ 1) :
    (0 ≤ (G_series z s).getD i 0 ∧ (G_series z s).getD i 0 ≤ 1) ∧
    (z.getD i 0 = 1 → (G_series z s).getD i 0 = 0) ∧
    (s.getD i 0 = 0 → (G_series z s).getD i 0 = 0) := by
  rw [G_series, getD_zipWith _ _ _ i 0 0 0 (by rw [← G_series]; exact hi)]
  refine ⟨⟨?_, ?_⟩, ?_, ?_⟩
  · exact mul_nonneg (by linarith) hs0
  · nlinarith
  · intro hz; rw [hz]; ring
  · intro hs; rw [hs]; ring

/-- C7: the manual-mode phase classification is a total deterministic
function on a single (Z, Sigma) pair, evaluated in the fixed precedence
order `Z < 0.3` first (DeadZone), then `Z > 0.7 and Sigma < 0.15`
(DangerZone), else SafeZone; in particular `Z = 0.2, Sigma = 0.05` is
DeadZone, not DangerZone. -/
theorem classifyPhase_total_precedence (z s : ℚ) :
    ((classifyPhase z s = .DeadZone) ↔ z < 0.3) ∧
    ((classifyPhase z s = .DangerZone) ↔
      (¬ z < 0.3 ∧ z > 0.7 ∧ s < 0.15)) ∧
    ((classifyPhase z s = .SafeZone) ↔
      (¬ z < 0.3 ∧ ¬ (z > 0.7 ∧ s < 0.15))) ∧
    classifyPhase 0.2 0.05 = .DeadZone := by
  refine ⟨?_, ?_, ?_, ?_⟩ <;>
    simp only [classifyPhase] <;>
    [skip; skip; skip; norm_num]
  all_goals split_ifs with h1 h2 <;> simp_all

/-- C8 counterexample: on a concrete batch lacking `H98y2`, the computation
does fail with no partial report, but the error message is the fixed string
of source line 131, which does not contain the missing column name — the
message does not enumerate the missing columns. -/
theorem missing_columns_message_counterexample :
    processInput exMissingCols =
      .error (.missingColumns "Missing required columns.") ∧
    ¬ ("H98y2".toList <:+: "Missing required columns.".toList) := by
  constructor
  · rfl
  · decide

/-- C8 as amended: a batch missing at least one required column fails before
any partial result is produced, with the fixed error message
"Missing required columns."; that message contains none of the required
column names, so it does not enumerate the missing ones. -/
theorem missing_columns_fixed_message (cols : List (String × List ℚ))
    (c : String) (hc : c ∈ requiredCols) (hmiss : c ∉ cols.map Prod.fst) :
    processInput cols = .error (.missingColumns "Missing required columns.") ∧
    ∀ d ∈ requiredCols,
      ¬ (d.toList <:+: "Missing required columns.".toList) := by
  constructor
  · have hfalse : hasRequired cols = false := by
      unfold hasRequired
      rw [List.all_eq_false]
      exact ⟨c, hc, by simpa using hmiss⟩
    simp [processInput, hfalse]
  · decide

/-- An array of fewer than two samples has no numerical gradient:
`np.gradient` raises. -/
theorem npGradient_short (l : List ℚ) (h : l.length < 2) :
    npGradient l = none := by
  cases l with
  | nil => rfl
  | cons x xs =>
    cases xs with
    | nil => rfl
    | cons y ys => simp at h; omega

/-- C10: on a batch with all required columns but exactly one row, the
pipeline fails at the gradient step (`np.gradient` needs at least two
elements), so no flags, summary metrics or report are produced — the
resolution of the under-two-rows contract is fail-fast. -/
theorem single_row_batch_fails (cols : List (String × List ℚ))
    (hreq : hasRequired cols = true)
    (_h1 : (getCol cols "time").length = 1)
    (h2 : (getCol cols "H98y2").length = 1)
    (_h3 : (getCol cols "P_rad").length = 1)
    (_h4 : (getCol cols "P_input").length = 1)
    (_h5 : (getCol cols "f_ELM").length = 1)
    (_h6 : (getCol cols "DeltaW_ELM").length = 1) :
    processInput cols = .error .dataError := by
  have hz : (minmaxNormalize (getCol cols "H98y2")).length = 1 := by
    simp [minmaxNormalize, h2]
  have hglen : (G_series (minmaxNormalize (getCol cols "H98y2"))
      (minmaxNormalize (Sigma_raw (getCol cols "P_rad")
        (getCol cols "P_input") (getCol cols "f_ELM")
        (getCol cols "DeltaW_ELM")))).length < 2 := by
    rw [G_series, List.length_zipWith]
    have := min_le_left (minmaxNormalize (getCol cols "H98y2")).length
      (minmaxNormalize (Sigma_raw (getCol cols "P_rad")
        (getCol cols "P_input") (getCol cols "f_ELM")
        (getCol cols "DeltaW_ELM"))).length
    omega
  have hg := npGradient_short _ hglen
  simp [processInput, hreq, pipeline, hg]

/-- The two-argument skipna minimum absorbs negative infinity on the
right. -/
theorem fmin2_ninf_right (a : FVal) : fmin2 a .ninf = .ninf := by
  cases a <;> rfl

/-- A fold of the skipna minimum from a negative-infinity accumulator stays
at negative infinity. -/
theorem foldl_fmin2_ninf_acc (l : List FVal) :
    l.foldl fmin2 .ninf = .ninf := by
  induction l with
  | nil => rfl
  | cons x xs ih => simpa [fmin2] using ih

/-- A fold of the skipna minimum over a list containing negative infinity
returns negative infinity, whatever the accumulator. -/
theorem foldl_fmin2_mem_ninf (l : List FVal) (h : FVal.ninf ∈ l) :
    ∀ acc, l.foldl fmin2 acc = .ninf := by
  induction l with
  | nil => cases h
  | cons x xs ih =>
    intro acc
    rcases List.mem_cons.mp h with hx | hx
    · rw [List.foldl_cons, ← hx, fmin2_ninf_right]
      exact foldl_fmin2_ninf_acc xs
    · rw [List.foldl_cons]
      exact ih hx _

/-- The skipna minimum of a list containing negative infinity is negative
infinity (pandas `Series.min`). -/
theorem fminList_eq_ninf {l : List FVal} (h : FVal.ninf ∈ l) :
    fminList l = .ninf :=
  foldl_fmin2_mem_ninf l h _

/-- The two-argument skipna maximum absorbs positive infinity on the
right. -/
theorem fmax2_inf_right (a : FVal) : fmax2 a .inf = .inf := by
  cases a <;> rfl

/-- A fold of the skipna maximum from a positive-infinity accumulator stays
at positive infinity. -/
theorem foldl_fmax2_inf_acc (l : List FVal) :
    l.foldl fmax2 .inf = .inf := by
  induction l with
  | nil => rfl
  | cons x xs ih => simpa [fmax2] using ih

/-- A fold of the skipna maximum over a list containing positive infinity
returns positive infinity, whatever the accumulator. -/
theorem foldl_fmax2_mem_inf (l : List FVal) (h : FVal.inf ∈ l) :
    ∀ acc, l.foldl fmax2 acc = .inf := by
  induction l with
  | nil => cases h
  | cons x xs ih =>
    intro acc
    rcases List.mem_cons.mp h with hx | hx
    · rw [List.foldl_cons, ← hx, fmax2_inf_right]
      exact foldl_fmax2_inf_acc xs
    · rw [List.foldl_cons]
      exact ih hx _

/-- The skipna maximum of a list containing positive infinity is positive
infinity (pandas `Series.max`). -/
theorem fmaxList_eq_inf {l : List FVal} (h : FVal.inf ∈ l) :
    fmaxList l = .inf :=
  foldl_fmax2_mem_inf l h _

/-- Division of a finite value by zero is never finite: NaN for a zero
numerator, a signed infinity otherwise. -/
theorem fdiv_fin_zero (a : ℚ) :
    fdiv (FVal.fin a) (FVal.fin 0) = .nan ∨
    fdiv (FVal.fin a) (FVal.fin 0) = .inf ∨
    fdiv (FVal.fin a) (FVal.fin 0) = .ninf := by
  by_cases h : a = 0
  · left; simp [fdiv, h]
  · by_cases h2 : 0 < a
    · right; left; simp [fdiv, h, h2]
    · right; right; simp [fdiv, h, h2]

/-- NaN absorbs addition on the left. -/
theorem fadd_nan (b : FVal) : fadd .nan b = .nan := by cases b <;> rfl

/-- NaN absorbs subtraction on the left. -/
theorem fsub_nan (b : FVal) : fsub .nan b = .nan := by cases b <;> rfl

/-- NaN absorbs division on the left. -/
theorem fdiv_nan (b : FVal) : fdiv .nan b = .nan := by cases b <;> rfl

/-- C9: a batch containing a sample with `P_input = 0` is not aborted: the
division produces a non-finite `f_rad` there, which propagates into
`Sigma_raw` and onward into the normalized Σ output series — a full-length
series is still produced, with the non-finite value surfaced rather than
trapped or corrected. -/
theorem p_input_zero_not_trapped (P Pi E W : List ℚ)
    (hPi : Pi.length = P.length) (hE : E.length = P.length)
    (hW : W.length = P.length) (i : ℕ) (hi : i < P.length)
    (h0 : Pi.getD i 0 = 0) :
    isFinite ((fFrad P Pi).getD i (.fin 0)) = false ∧
    isFinite ((fSigmaRaw P Pi E W).getD i (.fin 0)) = false ∧
    isFinite ((fSigmaProxy P Pi E W).getD i (.fin 0)) = false ∧
    (fSigmaProxy P Pi E W).length = P.length := by
  have lfr : (fFrad P Pi).length = P.length := by
    simp [fFrad, List.length_zipWith, hPi]
  have linner : (List.zipWith
      (fun fr e => fadd (fmul (FVal.fin 0.5) fr) (fmul (FVal.fin 0.4) (FVal.fin e)))
      (fFrad P Pi) E).length = P.length := by
    simp [List.length_zipWith, lfr, hE]
  have lsr : (fSigmaRaw P Pi E W).length = P.length := by
    simp [fSigmaRaw, List.length_zipWith, lfr, hE, hW]
  have lsp : (fSigmaProxy P Pi E W).length = P.length := by
    simp [fSigmaProxy, lsr]
  have hbfr : i < (fFrad P Pi).length := by rw [lfr]; exact hi
  have hbinner : i < (List.zipWith
      (fun fr e => fadd (fmul (FVal.fin 0.5) fr) (fmul (FVal.fin 0.4) (FVal.fin e)))
      (fFrad P Pi) E).length := by rw [linner]; exact hi
  have hbsr : i < (fSigmaRaw P Pi E W).length := by rw [lsr]; exact hi
  have hfr : (fFrad P Pi).getD i (FVal.fin 0) =
      fdiv (FVal.fin (P.getD i 0)) (FVal.fin (Pi.getD i 0)) :=
    getD_zipWith _ _ _ i 0 0 (FVal.fin 0) hbfr
  have hfr3 : (fFrad P Pi).getD i (FVal.fin 0) = .nan ∨
      (fFrad P Pi).getD i (FVal.fin 0) = .inf ∨
      (fFrad P Pi).getD i (FVal.fin 0) = .ninf := by
    rw [hfr, h0]
    exact fdiv_fin_zero _
  have hsre : (fSigmaRaw P Pi E W).getD i (FVal.fin 0) =
      fsub (fadd (fmul (FVal.fin 0.5) ((fFrad P Pi).getD i (FVal.fin 0)))
          (fmul (FVal.fin 0.4) (FVal.fin (E.getD i 0))))
        (fmul (FVal.fin 0.3) (FVal.fin (W.getD i 0))) := by
    have e1 := getD_zipWith
      (fun x w => fsub x (fmul (FVal.fin 0.3) (FVal.fin w)))
      (List.zipWith (fun fr e => fadd (fmul (FVal.fin 0.5) fr)
        (fmul (FVal.fin 0.4) (FVal.fin e))) (fFrad P Pi) E)
      W i (FVal.fin 0) 0 (FVal.fin 0) hbsr
    have e2 := getD_zipWith
      (fun fr e => fadd (fmul (FVal.fin 0.5) fr) (fmul (FVal.fin 0.4) (FVal.fin e)))
      (fFrad P Pi) E i (FVal.fin 0) 0 (FVal.fin 0) hbinner
    rw [fSigmaRaw, e1, e2]
  have hsr3 : (fSigmaRaw P Pi E W).getD i (FVal.fin 0) = .nan ∨
      (fSigmaRaw P Pi E W).getD i (FVal.fin 0) = .inf ∨
      (fSigmaRaw P Pi E W).getD i (FVal.fin 0) = .ninf := by
    rcases hfr3 with hc | hc | hc
    · left; rw [hsre, hc]; rfl
    · right; left; rw [hsre, hc]
      have h05 : fmul (FVal.fin (0.5 : ℚ)) FVal.inf = .inf := by
        simp only [fmul]
        norm_num
      rw [h05]
      rfl
    · right; right; rw [hsre, hc]
      have h05 : fmul (FVal.fin (0.5 : ℚ)) FVal.ninf = .ninf := by
        simp only [fmul]
        norm_num
      rw [h05]
      rfl
  have hspe : (fSigmaProxy P Pi E W).getD i (FVal.fin 0) =
      fdiv (fsub ((fSigmaRaw P Pi E W).getD i (FVal.fin 0))
          (fminList (fSigmaRaw P Pi E W)))
        (fadd (fsub (fmaxList (fSigmaRaw P Pi E W))
          (fminList (fSigmaRaw P Pi E W))) (.fin epsilon)) := by
    simp only [fSigmaProxy]
    exact getD_map _ _ _ (FVal.fin 0) (FVal.fin 0)
      (by simp only [List.length_map]; exact hbsr)
  have hfin1 : isFinite ((fFrad P Pi).getD i (FVal.fin 0)) = false := by
    rcases hfr3 with hc | hc | hc <;> rw [hc] <;> rfl
  have hfin2 : isFinite ((fSigmaRaw P Pi E W).getD i (FVal.fin 0)) = false := by
    rcases hsr3 with hc | hc | hc <;> rw [hc] <;> rfl
  have hfin3 : isFinite ((fSigmaProxy P Pi E W).getD i (FVal.fin 0)) = false := by
    rcases hsr3 with hc | hc | hc
    · rw [hspe, hc, fsub_nan, fdiv_nan]; rfl
    · have hmem : FVal.inf ∈ fSigmaRaw P Pi E W :=
        hc ▸ getD_mem _ i (FVal.fin 0) hbsr
      have hmax := fmaxList_eq_inf hmem
      rw [hspe, hc, hmax]
      cases hm : fminList (fSigmaRaw P Pi E W) <;> rfl
    · have hmem : FVal.ninf ∈ fSigmaRaw P Pi E W :=
        hc ▸ getD_mem _ i (FVal.fin 0) hbsr
      have hmin := fminList_eq_ninf hmem
      have hsubst : fsub FVal.ninf FVal.ninf = FVal.nan := rfl
      rw [hspe, hc, hmin, hsubst, fdiv_nan]
      rfl
  exact ⟨hfin1, hfin2, hfin3, lsp⟩

/-- Evaluation of the whole pipeline on the concrete two-row batch
`exCols`. -/
theorem processInput_exCols : processInput exCols = .ok exReport := by
  have hreq : hasRequired exCols = true := rfl
  have hcH : getCol exCols "H98y2" = [0, 1] := rfl
  have hcP : getCol exCols "P_rad" = [0, 2] := rfl
  have hcPi : getCol exCols "P_input" = [1, 1] := rfl
  have hcE : getCol exCols "f_ELM" = [0, 0] := rfl
  have hcW : getCol exCols "DeltaW_ELM" = [0, 0] := rfl
  have hZ : minmaxNormalize [0, 1] = [0, 1000000 / 1000001] := by
    norm_num [minmaxNormalize, qmin, qmax, epsilon]
  have hSraw : Sigma_raw [0, 2] [1, 1] [0, 0] [0, 0] = [0, 1] := by
    norm_num [Sigma_raw, f_rad]
  have hG : G_series [0, 1000000 / 1000001] [0, 1000000 / 1000001] =
      [0, 1000000 / 1000002000001] := by
    norm_num [G_series]
  have hd : d_minSeries [0, 1000000 / 1000001] [0, 1000000 / 1000001] =
      [-3 / 10, -2999983 / 20000020] := by
    norm_num [d_minSeries, wallDistance, Z_min, Z_max, Sigma_min, Sigma_max,
      min_def]
  have hgrad : npGradient [0, 1000000 / 1000002000001] =
      some [1000000 / 1000002000001, 1000000 / 1000002000001] := by
    norm_num [npGradient, gradAux]
  have hperc : npPercentile90
      [1000000 / 1000002000001, 1000000 / 1000002000001] =
      1000000 / 1000002000001 := by
    norm_num [npPercentile90, sortAsc, insertAsc]
  have hprox : List.map (fun x => decide (x < d_crit))
      [(-3 : ℚ) / 10, -2999983 / 20000020] = [true, true] := by
    norm_num [d_crit]
  have hpress : List.map
      (fun x => decide (x > npPercentile90
        [1000000 / 1000002000001, 1000000 / 1000002000001]))
      [(1000000 : ℚ) / 1000002000001, 1000000 / 1000002000001] =
      [false, false] := by
    rw [hperc]
    norm_num
  have hqmin : qmin [-3 / 10, -2999983 / 20000020] = -3 / 10 := by
    norm_num [qmin, min_def]
  have hqmax : qmax [1000000 / 1000002000001, 1000000 / 1000002000001] =
      1000000 / 1000002000001 := by
    norm_num [qmax, max_def]
  simp only [processInput, hreq, if_true, hcH, hcP, hcPi, hcE, hcW,
    pipeline, hSraw, hZ, hG, hd, hgrad, hperc, hprox, hpress, hqmin, hqmax]
  simp [exReport]

/-- Witness for C1 at sample 0 of the concrete batch. -/
theorem phase0_flag_disjunction_witness :
    exReport.phase0_flag.getD 0 false =
      (decide (exReport.d_min.getD 0 0 < 0.05) ||
        decide (exReport.dGdt.getD 0 0 > npPercentile90 exReport.dGdt)) :=
  phase0_flag_disjunction exCols exReport processInput_exCols 0 (by decide)

/-- Witness for C2 at sample 0 of the concrete batch. -/
theorem distance_to_wall_min_of_four_witness :
    exReport.d_min.getD 0 0 =
      min (exReport.Z.getD 0 0 - 0.30)
        (min (0.90 - exReport.Z.getD 0 0)
          (min (exReport.Sigma.getD 0 0 - 0.15)
            (0.85 - exReport.Sigma.getD 0 0))) :=
  distance_to_wall_min_of_four exCols exReport processInput_exCols 0 (by decide)

/-- Witness for C3 at sample 0 of the concrete batch. -/
theorem Z_proxy_minmax_epsilon_witness :
    exReport.Z.getD 0 0 =
      (([0, 1] : List ℚ).getD 0 0 - qmin [0, 1]) /
        (qmax [0, 1] - qmin [0, 1] + 1e-6) ∧
    minmaxNormalize [1, 1, 1] = [0, 0, 0] ∧
    fZ_proxy [1, 1, 1] = [.fin 0, .fin 0, .fin 0] :=
  Z_proxy_minmax_epsilon exCols exReport [0, 1] processInput_exCols rfl 0
    (by decide)

/-- Witness for C4 at sample 0 of the concrete batch. -/
theorem Sigma_proxy_formula_witness :
    (Sigma_raw [0, 2] [1, 1] [0, 0] [0, 0]).getD 0 0 =
      0.5 * (([0, 2] : List ℚ).getD 0 0 / ([1, 1] : List ℚ).getD 0 0) +
        0.4 * ([0, 0] : List ℚ).getD 0 0 -
        0.3 * ([0, 0] : List ℚ).getD 0 0 ∧
    exReport.Sigma.getD 0 0 =
      ((Sigma_raw [0, 2] [1, 1] [0, 0] [0, 0]).getD 0 0 -
          qmin (Sigma_raw [0, 2] [1, 1] [0, 0] [0, 0])) /
        (qmax (Sigma_raw [0, 2] [1, 1] [0, 0] [0, 0]) -
          qmin (Sigma_raw [0, 2] [1, 1] [0, 0] [0, 0]) + 1e-6) :=
  Sigma_proxy_formula exCols exReport [0, 2] [1, 1] [0, 0] [0, 0]
    processInput_exCols rfl rfl rfl rfl (by norm_num) 0 (by decide)

/-- Witness for C5 at the concrete proxy pair (1/2, 1/2). -/
theorem gate_product_range_witness :
    (0 ≤ (G_series [(1 : ℚ) / 2] [(1 : ℚ) / 2]).getD 0 0 ∧
      (G_series [(1 : ℚ) / 2] [(1 : ℚ) / 2]).getD 0 0 ≤ 1) ∧
    (([(1 : ℚ) / 2]).getD 0 0 = 1 →
      (G_series [(1 : ℚ) / 2] [(1 : ℚ) / 2]).getD 0 0 = 0) ∧
    (([(1 : ℚ) / 2]).getD 0 0 = 0 →
      (G_series [(1 : ℚ) / 2] [(1 : ℚ) / 2]).getD 0 0 = 0) :=
  gate_product_range [(1 : ℚ) / 2] [(1 : ℚ) / 2] 0 (by decide)
    (by norm_num) (by norm_num) (by norm_num) (by norm_num)

/-- Witness for C6 at sample 0 of the concrete batch, which lies outside the
Sandy Square. -/
theorem outside_rectangle_flagged_witness :
    exReport.phase0_flag.getD 0 false = true :=
  outside_rectangle_flagged exCols exReport processInput_exCols 0 (by decide)
    (by norm_num [exReport])

/-- Witness for the amended C8 on the concrete batch lacking `H98y2`. -/
theorem missing_columns_fixed_message_witness :
    processInput exMissingCols =
      .error (.missingColumns "Missing required columns.") ∧
    ∀ d ∈ requiredCols,
      ¬ (d.toList <:+: "Missing required columns.".toList) :=
  missing_columns_fixed_message exMissingCols "H98y2" (by decide) (by decide)

/-- Witness for C9 at the concrete sample with `P_input = 0`. -/
theorem p_input_zero_not_trapped_witness :
    isFinite ((fFrad [1, 2] [1, 0]).getD 1 (.fin 0)) = false ∧
    isFinite ((fSigmaRaw [1, 2] [1, 0] [0, 0] [0, 0]).getD 1 (.fin 0)) = false ∧
    isFinite ((fSigmaProxy [1, 2] [1, 0] [0, 0] [0, 0]).getD 1 (.fin 0)) =
      false ∧
    (fSigmaProxy [1, 2] [1, 0] [0, 0] [0, 0]).length =
      ([1, 2] : List ℚ).length :=
  p_input_zero_not_trapped [1, 2] [1, 0] [0, 0] [0, 0] rfl rfl rfl 1
    (by decide) (by norm_num)

/-- Witness for C10 on the concrete one-row batch. -/
theorem single_row_batch_fails_witness :
    processInput exOneRowCols = .error .dataError :=
  single_row_batch_fails exOneRowCols rfl rfl rfl rfl rfl rfl rfl

end SandysLaw
